import Mathlib

/-!
Shallow embedding of the MPO (Message Passing Object) library: the type-tag
hierarchy (`Type.hpp`), the deferred message queue (`Message.hpp`), the
Signal/Slot endpoints and their name directories (`Signal.hpp`, `Slot.hpp`)
and the Link connection objects (`Link.hpp`, `Link.cpp`).

C++ objects are identified by `Nat` ids; the pointer-keyed `std::map` /
`std::set` containers become association lists / lists over ids; the
`boost::function` slot callbacks become an invocation log recorded by the
dispatch step; `throw` becomes `Except.error`.
-/

namespace MPO

/-! ## Association-list helpers (model of `std::map` keyed containers) -/

/-- `find` on an association list, mirroring `std::map::find`. -/
def lookupA {α β : Type} [DecidableEq α] (k : α) : List (α × β) → Option β
  | [] => none
  | (k', v) :: rest => if k' = k then some v else lookupA k rest

/-- `erase(key)` on an association list, mirroring `std::map::erase`. -/
def eraseA {α β : Type} [DecidableEq α] (k : α) : List (α × β) → List (α × β)
  | [] => []
  | (k', v) :: rest => if k' = k then eraseA k rest else (k', v) :: eraseA k rest

/-- `map[key] = value` on an association list: overwrite or append. -/
def insertA {α β : Type} [DecidableEq α] (k : α) (v : β) :
    List (α × β) → List (α × β)
  | [] => [(k, v)]
  | (k', v') :: rest => if k' = k then (k, v) :: rest else (k', v') :: insertA k v rest

/-- Update the value stored under a key, leaving other entries alone. -/
def updateA {α β : Type} [DecidableEq α] (k : α) (f : β → β) :
    List (α × β) → List (α × β)
  | [] => []
  | (k', v) :: rest => if k' = k then (k, f v) :: rest else (k', v) :: updateA k f rest

/-! ## TypeDef (`Type.hpp`)

`TypeDef` is an immutable node of a type forest: a name and an optional
parent.  `isSameOrSubtypeOf` walks the parent chain of its *argument*,
comparing names against the receiver's name (`Type.hpp:97-105`). -/

/-- `TypeDef { m_name : std::string, m_parent : const TypeDef* }`. -/
inductive TypeDef where
  | mk (name : String) (parent : Option TypeDef)

/-- Structural decidable equality for `TypeDef` (the deriving handler does not
support the nested `Option`). -/
def TypeDef.decEq : (a b : TypeDef) → Decidable (a = b)
  | .mk n p, .mk n' p' =>
    match String.decEq n n' with
    | isFalse h => isFalse (by intro he; injection he with h1 h2; exact h h1)
    | isTrue hn =>
      match p, p' with
      | none, none => isTrue (by rw [hn])
      | none, some _ => isFalse (by intro he; injection he with h1 h2; cases h2)
      | some _, none => isFalse (by intro he; injection he with h1 h2; cases h2)
      | some a, some b =>
        match TypeDef.decEq a b with
        | isTrue hp => isTrue (by rw [hn, hp])
        | isFalse hp =>
          isFalse (by
            intro he; injection he with h1 h2
            exact hp (Option.some.inj h2))

instance : DecidableEq TypeDef := TypeDef.decEq

/-- `TypeDef::name()`. -/
def TypeDef.name : TypeDef → String
  | .mk n _ => n

/-- `TypeDef::parent()`. -/
def TypeDef.parent : TypeDef → Option TypeDef
  | .mk _ p => p

/-- The loop body of `TypeDef::isSameOrSubtypeOf`: starting at `t`, compare
each node's name with `n` and move to the parent, returning false when the
chain is exhausted. -/
def TypeDef.findName (n : String) : TypeDef → Bool
  | .mk nm p =>
    if nm = n then true
    else
      match p with
      | none => false
      | some q => q.findName n

/-- `TypeDef::isSameOrSubtypeOf(const TypeDef* type)`: walk up from `type`
comparing names with `this->name()`; `nullptr` gives false. -/
def TypeDef.isSameOrSubtypeOf (self : TypeDef) : Option TypeDef → Bool
  | none => false
  | some t => t.findName self.name

/-- The strict ancestors of a node: its parent chain, nearest first. -/
def TypeDef.properAncestors : TypeDef → List TypeDef
  | .mk _ none => []
  | .mk _ (some p) => p :: p.properAncestors

/-- The names along a node's chain: its own name followed by the names of
its strict ancestors. -/
def TypeDef.chainNames (t : TypeDef) : List String :=
  t.name :: t.properAncestors.map TypeDef.name

/-! ## Deferred queue (`Message.hpp`, `Message::Emitted`)

The C++ queue is a `std::list<Entry>`: `add` does `push_front`, `get` reads
and pops the *back* (`m_queue.back()` / `pop_back()`), `erase(link)` removes
every entry holding a given `Link*`.  The Lean list keeps the same
orientation: its head is the C++ front (newest entry), its last element the
C++ back (oldest entry). -/

/-- `Message::Emitted::Entry { Message::Ptr msg; Link* link; }`, with the
message and link identified by ids (`link = none` models a null `Link*`). -/
structure Entry where
  msg : Nat
  link : Option Nat
deriving DecidableEq

/-- Read and remove the back (oldest) element of the list; `none` on the
empty list.  This is `m_queue.back()` followed by `m_queue.pop_back()`. -/
def getBack : List Entry → Option (Entry × List Entry)
  | [] => none
  | [e] => some (e, [])
  | e :: e' :: rest =>
    match getBack (e' :: rest) with
    | none => none
    | some (x, rest') => some (x, e :: rest')

namespace Emitted

/-- `Message::Emitted::add`: `push_front`, so cons onto the Lean list. -/
def add (entry : Entry) (q : List Entry) : List Entry := entry :: q

/-- `Message::Emitted::get`: throws `std::runtime_error` when the queue is
empty, otherwise extracts the back entry. -/
def get (q : List Entry) : Except String (Entry × List Entry) :=
  match getBack q with
  | none => .error "Message::Emitted::get called on empty Message queue"
  | some r => .ok r

/-- `Message::Emitted::erase(Link*)`: drop every entry whose link is the
given one. -/
def erase (lid : Nat) (q : List Entry) : List Entry :=
  q.filter (fun e => e.link ≠ some lid)

end Emitted

/-! ## System state

One record collects the mutable objects of the library: the Signal and Slot
endpoints, the live Link objects, the deferred queue, the Message instances
(their dynamic `TypeDef`), and a log of slot-method invocations (the
observable effect of dispatch).  All objects are identified by `Nat` ids. -/

/-- `AnySignal`: declared message type plus `m_links` (`std::map<AnySlot*,
Link*>` — here an association list from slot id to link id). -/
structure SignalSt where
  msgType : TypeDef
  links : List (Nat × Nat)
deriving DecidableEq

/-- `AnySlot`: accepted message type plus `m_links` (`std::set<Link*>`). -/
structure SlotSt where
  msgType : TypeDef
  links : List Nat
deriving DecidableEq

/-- `Link`: `m_signal`, `m_slot`, and the bound slot function.  The bound
`m_slotFunction` is either the slot's static-cast (unchecked) or
dynamic-cast (checked) function; `useStatic` records which. -/
structure LinkSt where
  sig : Nat
  slt : Nat
  useStatic : Bool
deriving DecidableEq

/-- One recorded slot-method invocation: receiving slot, message, and the
link passed as the second argument of the slot function. -/
structure Invocation where
  slt : Nat
  msg : Nat
  link : Option Nat
deriving DecidableEq

/-- The whole mutable state of the library. -/
structure State where
  signals : List (Nat × SignalSt)
  slots : List (Nat × SlotSt)
  links : List (Nat × LinkSt)
  queue : List Entry
  msgs : List (Nat × TypeDef)
  log : List Invocation
  nextLink : Nat
deriving DecidableEq

/-! ## Dispatch functions (`Slot.hpp`)

`Slot::staticCastFunction` invokes the bound method unconditionally (for a
non-null message and owner); `Slot::dynamicCastFunction` performs
`dynamic_pointer_cast<TMsg>` and invokes only when the cast succeeds, i.e.
when the message's dynamic type is the accepted class or a subclass of it.
The C++ `dynamic_cast` over the message class hierarchy is mirrored by the
`TypeDef` forest, which the library requires to parallel the class
hierarchy. -/

/-- `Slot::staticCastFunction`: unconditionally invoke the bound method. -/
def staticCastInvoke (s : State) (slotId msgId : Nat) (lnk : Option Nat) :
    State :=
  { s with log := s.log ++ [⟨slotId, msgId, lnk⟩] }

/-- `Slot::dynamicCastFunction`: invoke the bound method only when the
message's dynamic type is the accepted type or a descendant (the
`dynamic_pointer_cast` succeeds); otherwise do nothing. -/
def dynamicCastInvoke (s : State) (slotId msgId : Nat) (lnk : Option Nat) :
    State :=
  match lookupA slotId s.slots, lookupA msgId s.msgs with
  | some ts, some mt =>
    if ts.msgType.isSameOrSubtypeOf (some mt) then
      { s with log := s.log ++ [⟨slotId, msgId, lnk⟩] }
    else s
  | _, _ => s

/-- `Link::forward`: call the bound slot function with the message and this
link. -/
def linkForward (s : State) (lk : LinkSt) (lid : Nat) (msgId : Nat) : State :=
  if lk.useStatic then staticCastInvoke s lk.slt msgId (some lid)
  else dynamicCastInvoke s lk.slt msgId (some lid)

/-! ## Link operations (`Link.hpp`, `Link.cpp`) -/

namespace Link

/-- The condition evaluated by the `Link` constructor to pick the slot
function: `forceStatic || signal.messageType().isSameOrSubtypeOf(
&slot.messageType())` (`Link.cpp`, `Link::Link`). -/
def pickStaticCast (forceStatic : Bool) (emitType acceptType : TypeDef) :
    Bool :=
  forceStatic || emitType.isSameOrSubtypeOf (some acceptType)

end Link

/-- `AnySignal::isConnected`: `m_links.find(&slot) != m_links.end()`. -/
def isConnected (s : State) (g t : Nat) : Bool :=
  match lookupA g s.signals with
  | none => false
  | some gs => (lookupA t gs.links).isSome

/-- The body of `Link::connect` after the null checks: construct the Link
(choosing the slot function), then `signal->connect(slot, link)` and
`slot->connect(link)`.  The fallthrough when an id is not in the state is
unreachable for live C++ references. -/
def addLink (s : State) (g t : Nat) (forceStatic : Bool) : State :=
  match lookupA g s.signals, lookupA t s.slots with
  | some gs, some ts =>
    let lid := s.nextLink
    let lk : LinkSt := ⟨g, t, Link.pickStaticCast forceStatic gs.msgType ts.msgType⟩
    { s with
      links := insertA lid lk s.links
      signals := updateA g (fun x => { x with links := insertA t lid x.links }) s.signals
      slots := updateA t (fun x => { x with links := lid :: x.links }) s.slots
      nextLink := lid + 1 }
  | _, _ => s

namespace Link

/-- `Link::connect(AnySignal*, AnySlot*, bool)`: fail on a null endpoint;
otherwise create a Link only when the pair is not already connected, and
report success. -/
def connect (s : State) (g? t? : Option Nat) (forceStatic : Bool) :
    Bool × State :=
  match g?, t? with
  | some g, some t =>
    if isConnected s g t then (true, s) else (true, addLink s g t forceStatic)
  | _, _ => (false, s)

/-- `AnySignal::disconnect(AnySlot&)`: erase the slot's entry from the
signal's link map, reporting whether one was erased. -/
def signalDisconnect (s : State) (g t : Nat) : Bool × State :=
  match lookupA g s.signals with
  | none => (false, s)
  | some gs =>
    ((lookupA t gs.links).isSome,
     { s with
       signals := updateA g (fun x => { x with links := eraseA t x.links }) s.signals })

/-- `Link::disconnect(AnySignal*, AnySlot*)`:
`signal && slot && signal->disconnect(*slot)`. -/
def disconnect (s : State) (g? t? : Option Nat) : Bool × State :=
  match g?, t? with
  | some g, some t => signalDisconnect s g t
  | _, _ => (false, s)

/-- `Link::~Link`: purge the queue (`Message::emitted.erase(this)`), then
`m_signal->disconnect(*m_slot)`, then `m_slot->disconnect(*this)`; finally
the Link object itself ceases to exist. -/
def destroy (s : State) (lid : Nat) : State :=
  match lookupA lid s.links with
  | none => s
  | some lk =>
    let s1 := { s with queue := Emitted.erase lid s.queue }
    let s2 := (signalDisconnect s1 lk.sig lk.slt).snd
    let s3 := { s2 with
      slots := updateA lk.slt
        (fun x => { x with links := x.links.filter (fun l => l ≠ lid) }) s2.slots }
    { s3 with links := eraseA lid s3.links }

end Link

/-- `AnySignal::emit`: for every `(slot, link)` entry of `m_links`, in map
order, push one queue entry `(msg, link)` to the front of the queue. -/
def emit (s : State) (g : Nat) (msgId : Nat) : State :=
  match lookupA g s.signals with
  | none => s
  | some gs =>
    gs.links.foldl
      (fun acc p => { acc with queue := Emitted.add ⟨msgId, some p.snd⟩ acc.queue })
      s

/-- `Message::Emitted::processNext` (`Link.cpp`): return false on an empty
queue; otherwise `get` the oldest entry, forward it through its link when
the link is non-null, and return whether the queue is non-empty after the
call.  A dangling `Link*` in an entry would be undefined behaviour in C++
and is modelled as an error. -/
def processNext (s : State) : Except String (Bool × State) :=
  if s.queue.isEmpty then .ok (false, s)
  else
    match Emitted.get s.queue with
    | .error m => .error m
    | .ok (e, q') =>
      let s1 := { s with queue := q' }
      match e.link with
      | none => .ok (!s1.queue.isEmpty, s1)
      | some l =>
        match lookupA l s1.links with
        | none => .error "dangling Link pointer"
        | some lk =>
          let s2 := linkForward s1 lk l e.msg
          .ok (!s2.queue.isEmpty, s2)

/-- Drive `processNext` a given number of steps, stopping on error. -/
def drainFuel : Nat → State → Except String State
  | 0, s => .ok s
  | n + 1, s =>
    match processNext s with
    | .error m => .error m
    | .ok (_, s') => drainFuel n s'

/-- Drain the queue: `while (processNext()) {}`.  Model slot methods do not
emit, so the queue length bounds the number of steps. -/
def drain (s : State) : Except String State := drainFuel s.queue.length s

/-- The invocation log left by a full drain, `none` when draining faults. -/
def drainLog (s : State) : Option (List Invocation) :=
  match drain s with
  | .ok s' => some s'.log
  | .error _ => none

/-! ## Endpoint name directory (`Signal.hpp`, `Slot.hpp`)

`AnySignal` keeps a name `m_name` per endpoint and a process-wide
`std::map<std::string, AnySignal*> m_signalMap`.  `AnySlot` has the
textually identical logic over its own `m_slotMap`; the one model below
covers both directories. -/

/-- The global name map (string to endpoint id) together with each
endpoint's `m_name` field (`""` when unnamed). -/
structure NameDir where
  map : List (String × Nat)
  names : List (Nat × String)
deriving DecidableEq

namespace AnySignal

/-- `AnySignal::name()`: the endpoint's `m_name`, `""` when never set. -/
def nameOf (d : NameDir) (e : Nat) : String := (lookupA e d.names).getD ""

/-- `AnySignal::unregisterName`: `m_signalMap.erase(m_name); m_name = "";`. -/
def unregisterName (d : NameDir) (e : Nat) : NameDir :=
  { map := eraseA (nameOf d e) d.map, names := insertA e "" d.names }

/-- `AnySignal::setName`: `unregisterName(); if (name != "")
m_signalMap[m_name = name] = this;`. -/
def setName (d : NameDir) (e : Nat) (n : String) : NameDir :=
  let d1 := unregisterName d e
  if n ≠ "" then { map := insertA n e d1.map, names := insertA e n d1.names }
  else d1

/-- `AnySignal::get(name)`: directory lookup, null when absent. -/
def get (d : NameDir) (n : String) : Option Nat := lookupA n d.map

end AnySignal

/-! ## Auxiliary predicates and spec-side definitions -/

/-- Spec-side formulation of the dispatch-selection test, following the
spec's words: the Emitter's declared type name "is found while walking up
the Receiver's type ancestor chain (i.e., the Receiver's accepted type or
one of its ancestors has the same name as the Emitter's declared type)". -/
def specFoundUpChain (emitterName : String) : TypeDef → Bool
  | .mk nm p =>
    if nm = emitterName then true
    else
      match p with
      | none => false
      | some q => specFoundUpChain emitterName q

/-- `a` is a strict ancestor of `b` in the type forest. -/
def isStrictAncestor (a b : TypeDef) : Prop := a ∈ b.properAncestors

instance (a b : TypeDef) : Decidable (isStrictAncestor a b) :=
  inferInstanceAs (Decidable (a ∈ b.properAncestors))

/-- A queue entry's `Link*` is either null or points at a live Link. -/
def entryLinkOk (links : List (Nat × LinkSt)) (e : Entry) : Bool :=
  match e.link with
  | none => true
  | some l => (lookupA l links).isSome

/-- Every queued entry references only live Links (the invariant the Link
destructor maintains by purging the queue first). -/
def queueValidB (s : State) : Bool := s.queue.all (entryLinkOk s.links)

/-- Invariant used while draining: queued links are live and none of them
is the destroyed link `lid`. -/
def QInv (lid : Nat) (s : State) : Prop :=
  (∀ e ∈ s.queue, entryLinkOk s.links e = true) ∧
  ∀ e ∈ s.queue, e.link ≠ some lid

/-- Enqueue a list of entries in order by successive `add` calls. -/
def pushAll (es : List Entry) : List Entry :=
  es.foldl (fun q e => Emitted.add e q) []

/-- Dequeue everything, oldest first, fuelled by the queue length. -/
def extractAllF : Nat → List Entry → List Entry
  | 0, _ => []
  | n + 1, q =>
    match getBack q with
    | none => []
    | some (e, rest) => e :: extractAllF n rest

/-- Dequeue everything, oldest first. -/
def extractAll (q : List Entry) : List Entry := extractAllF q.length q

/-! ## Concrete instances used by witnesses and counterexamples -/

/-- A root type `B`. -/
def tBase : TypeDef := .mk "B" none

/-- `M`, child of `B`. -/
def tMid : TypeDef := .mk "M" (some tBase)

/-- `L`, child of `M` (grandchild of `B`). -/
def tLeaf : TypeDef := .mk "L" (some tMid)

/-- The state with no objects and an empty queue. -/
def stEmpty : State := ⟨[], [], [], [], [], [], 0⟩

/-- Signal 0 (type `B`) connected to slot 0 (type `B`) through the
unchecked link 0, with one pending queue entry for message 5. -/
def stPair : State :=
  { signals := [(0, ⟨tBase, [(0, 0)]⟩)]
    slots := [(0, ⟨tBase, [0]⟩)]
    links := [(0, ⟨0, 0, true⟩)]
    queue := [⟨5, some 0⟩]
    msgs := [(5, tBase)]
    log := []
    nextLink := 1 }

/-- Signal 0 and slot 0 (both of type `B`) with no connection yet. -/
def stFresh : State :=
  { signals := [(0, ⟨tBase, []⟩)]
    slots := [(0, ⟨tBase, []⟩)]
    links := []
    queue := []
    msgs := []
    log := []
    nextLink := 0 }

/-- One connected pair with two messages (ids 1 and 2) ready to emit. -/
def stFifo : State :=
  { signals := [(0, ⟨tBase, [(0, 0)]⟩)]
    slots := [(0, ⟨tBase, [0]⟩)]
    links := [(0, ⟨0, 0, true⟩)]
    queue := []
    msgs := [(1, tBase), (2, tBase)]
    log := []
    nextLink := 1 }

/-- Emitter of type `B` wired to a receiver of type `L` through a link
bound to the checked (dynamic-cast) function, with a pending message of
dynamic type `B`. -/
def stChkBase : State :=
  { signals := [(0, ⟨tBase, [(0, 0)]⟩)]
    slots := [(0, ⟨tLeaf, [0]⟩)]
    links := [(0, ⟨0, 0, false⟩)]
    queue := [⟨1, some 0⟩]
    msgs := [(1, tBase)]
    log := []
    nextLink := 1 }

/-- Same wiring as `stChkBase` but the pending message has dynamic type
`L`. -/
def stChkLeaf : State :=
  { signals := [(0, ⟨tBase, [(0, 0)]⟩)]
    slots := [(0, ⟨tLeaf, [0]⟩)]
    links := [(0, ⟨0, 0, false⟩)]
    queue := [⟨1, some 0⟩]
    msgs := [(1, tLeaf)]
    log := []
    nextLink := 1 }

/-- A directory where name `"x"` is taken by endpoint 9 and endpoint 1 is
named `"a"`. -/
def dirW : NameDir := ⟨[("x", 9)], [(1, "a")]⟩

/-! ## Lemmas -/

theorem lookupA_insertA_self {α β : Type} [DecidableEq α] (k : α) (v : β)
    (l : List (α × β)) : lookupA k (insertA k v l) = some v := by
  induction l with
  | nil => simp [insertA, lookupA]
  | cons p rest ih =>
    obtain ⟨k', v'⟩ := p
    by_cases h : k' = k
    · simp [insertA, lookupA, h]
    · simp [insertA, lookupA, h, ih]

theorem lookupA_eraseA_self {α β : Type} [DecidableEq α] (k : α)
    (l : List (α × β)) : lookupA k (eraseA k l) = none := by
  induction l with
  | nil => simp [eraseA, lookupA]
  | cons p rest ih =>
    obtain ⟨k', v'⟩ := p
    by_cases h : k' = k
    · simp [eraseA, h, ih]
    · simp [eraseA, lookupA, h, ih]

theorem lookupA_eraseA_ne {α β : Type} [DecidableEq α] {k k' : α} (h : k' ≠ k)
    (l : List (α × β)) : lookupA k' (eraseA k l) = lookupA k' l := by
  induction l with
  | nil => simp [eraseA]
  | cons p rest ih =>
    obtain ⟨a, b⟩ := p
    by_cases ha : a = k
    · subst ha
      simp [eraseA, lookupA, Ne.symm h, ih]
    · by_cases hb : a = k'
      · subst hb
        simp [eraseA, lookupA, ha]
      · simp [eraseA, lookupA, ha, hb, ih]

theorem lookupA_updateA_self {α β : Type} [DecidableEq α] (k : α) (f : β → β)
    {l : List (α × β)} {v : β} (h : lookupA k l = some v) :
    lookupA k (updateA k f l) = some (f v) := by
  induction l with
  | nil => simp [lookupA] at h
  | cons p rest ih =>
    obtain ⟨k', v'⟩ := p
    by_cases hk : k' = k
    · subst hk
      simp [lookupA] at h
      simp [updateA, lookupA, h]
    · simp [lookupA, hk] at h
      simp [updateA, lookupA, hk, ih h]

theorem lookupA_updateA_ne {α β : Type} [DecidableEq α] {k k' : α} (f : β → β)
    (h : k' ≠ k) (l : List (α × β)) :
    lookupA k' (updateA k f l) = lookupA k' l := by
  induction l with
  | nil => simp [updateA]
  | cons p rest ih =>
    obtain ⟨a, b⟩ := p
    by_cases ha : a = k
    · subst ha
      simp [updateA, lookupA, Ne.symm h]
    · by_cases hb : a = k'
      · subst hb
        simp [updateA, lookupA, ha]
      · simp [updateA, lookupA, ha, hb, ih]

theorem insertA_length_of_fresh {α β : Type} [DecidableEq α] {k : α} (v : β)
    {l : List (α × β)} (h : lookupA k l = none) :
    (insertA k v l).length = l.length + 1 := by
  induction l with
  | nil => simp [insertA]
  | cons p rest ih =>
    obtain ⟨k', v'⟩ := p
    by_cases hk : k' = k
    · simp [lookupA, hk] at h
    · simp [lookupA, hk] at h
      simp [insertA, hk, ih h]

theorem TypeDef.findName_mk (n nm : String) (p : Option TypeDef) :
    TypeDef.findName n (.mk nm p) =
      if nm = n then true
      else
        match p with
        | none => false
        | some q => q.findName n := by
  cases p <;> rfl

theorem TypeDef.findName_iff (t : TypeDef) (n : String) :
    t.findName n = true ↔ n ∈ t.chainNames := by
  match t with
  | .mk nm none =>
    rw [TypeDef.findName_mk]
    by_cases h : nm = n
    · subst h
      simp [TypeDef.chainNames, TypeDef.name]
    · simp [h, TypeDef.chainNames, TypeDef.properAncestors, TypeDef.name,
        Ne.symm h]
  | .mk nm (some p) =>
    rw [TypeDef.findName_mk]
    by_cases h : nm = n
    · subst h
      simp [TypeDef.chainNames, TypeDef.name]
    · have ih := TypeDef.findName_iff p n
      simp only [h, if_false]
      rw [ih]
      simp [TypeDef.chainNames, TypeDef.properAncestors, TypeDef.name,
        Ne.symm h]

theorem TypeDef.mem_chainNames_of_properAncestor {a t : TypeDef}
    (h : a ∈ t.properAncestors) : a.name ∈ t.chainNames := by
  unfold TypeDef.chainNames
  exact List.mem_cons_of_mem _ (List.mem_map_of_mem TypeDef.name h)

theorem TypeDef.findName_self (t : TypeDef) : t.findName t.name = true := by
  match t with
  | .mk nm p =>
    rw [TypeDef.findName_mk]
    simp [TypeDef.name]

theorem getBack_concat (l : List Entry) (e : Entry) :
    getBack (l ++ [e]) = some (e, l) := by
  induction l with
  | nil => rfl
  | cons x rest ih =>
    cases rest with
    | nil => rfl
    | cons y ys =>
      simp only [List.cons_append] at ih ⊢
      rw [getBack]
      rw [ih]

theorem getBack_eq_none_iff (q : List Entry) : getBack q = none ↔ q = [] := by
  match q with
  | [] => simp [getBack]
  | [e] => simp [getBack]
  | e :: e' :: rest =>
    rw [getBack]
    have ih := getBack_eq_none_iff (e' :: rest)
    constructor
    · intro h
      match hg : getBack (e' :: rest) with
      | none => exact absurd (ih.mp hg) (by simp)
      | some r => rw [hg] at h; simp at h
    · intro h
      simp at h

theorem getBack_mem {q rest : List Entry} {e : Entry}
    (h : getBack q = some (e, rest)) : e ∈ q ∧ ∀ x ∈ rest, x ∈ q := by
  match q with
  | [] => simp [getBack] at h
  | [a] =>
    simp [getBack] at h
    obtain ⟨he, hr⟩ := h
    subst he; subst hr
    simp
  | a :: b :: tl =>
    rw [getBack] at h
    match hg : getBack (b :: tl) with
    | none => rw [hg] at h; simp at h
    | some (x, rest') =>
      rw [hg] at h
      simp at h
      obtain ⟨hx, hr⟩ := h
      subst hx; subst hr
      have ih := getBack_mem hg
      refine ⟨List.mem_cons_of_mem _ ih.1, ?_⟩
      intro y hy
      rcases List.mem_cons.mp hy with h1 | h2
      · subst h1; simp
      · exact List.mem_cons_of_mem _ (ih.2 y h2)

theorem getBack_length {q rest : List Entry} {e : Entry}
    (h : getBack q = some (e, rest)) : q.length = rest.length + 1 := by
  match q with
  | [] => simp [getBack] at h
  | [a] =>
    simp [getBack] at h
    obtain ⟨he, hr⟩ := h
    subst hr
    rfl
  | a :: b :: tl =>
    rw [getBack] at h
    match hg : getBack (b :: tl) with
    | none => rw [hg] at h; simp at h
    | some (x, rest') =>
      rw [hg] at h
      simp at h
      obtain ⟨hx, hr⟩ := h
      subst hr
      have ih := getBack_length hg
      simp [ih]

theorem specFoundUpChain_mk (en nm : String) (p : Option TypeDef) :
    specFoundUpChain en (.mk nm p) =
      if nm = en then true
      else
        match p with
        | none => false
        | some q => specFoundUpChain en q := by
  cases p <;> rfl

theorem specFoundUpChain_eq_findName (n : String) (t : TypeDef) :
    specFoundUpChain n t = TypeDef.findName n t := by
  match t with
  | .mk nm none => rfl
  | .mk nm (some p) =>
    show (if nm = n then true else specFoundUpChain n p)
      = if nm = n then true else TypeDef.findName n p
    rw [specFoundUpChain_eq_findName n p]

theorem pickStaticCast_eq_spec (f : Bool) (e r : TypeDef) :
    Link.pickStaticCast f e r = (f || specFoundUpChain e.name r) := by
  rw [Link.pickStaticCast, TypeDef.isSameOrSubtypeOf,
    specFoundUpChain_eq_findName]

/-- C1: at connect time the Link binds the unchecked (static-cast) slot
function exactly when `forceStatic` is set or the Emitter's declared type
name is found while walking up the chain formed by the Receiver's accepted
type and its ancestors (name comparison, not identity).  Truth table:
`E == R` gives unchecked; `E` a strict ancestor of `R` gives unchecked;
`R` a strict ancestor of `E` (with `E`'s name absent from `R`'s chain)
gives checked; unrelated types (name absent) give checked. -/
theorem connect_dispatch_selection_C1 :
    (∀ (s : State) (g t : Nat) (f : Bool) (gs : SignalSt) (ts : SlotSt),
        lookupA g s.signals = some gs → lookupA t s.slots = some ts →
        isConnected s g t = false →
        lookupA s.nextLink ((Link.connect s (some g) (some t) f).snd).links
          = some ⟨g, t, f || specFoundUpChain gs.msgType.name ts.msgType⟩)
    ∧ (∀ e : TypeDef, Link.pickStaticCast false e e = true)
    ∧ (∀ e r : TypeDef, isStrictAncestor e r →
        Link.pickStaticCast false e r = true)
    ∧ (∀ e r : TypeDef, isStrictAncestor r e → e.name ∉ r.chainNames →
        Link.pickStaticCast false e r = false)
    ∧ (∀ e r : TypeDef, e.name ∉ r.chainNames →
        Link.pickStaticCast false e r = false) := by
  have habsent : ∀ e r : TypeDef, e.name ∉ r.chainNames →
      Link.pickStaticCast false e r = false := by
    intro e r h
    rw [Link.pickStaticCast, TypeDef.isSameOrSubtypeOf]
    cases hf : TypeDef.findName e.name r with
    | false => rfl
    | true => exact absurd ((TypeDef.findName_iff r e.name).mp hf) h
  refine ⟨?_, ?_, ?_, ?_, habsent⟩
  · intro s g t f gs ts hg ht hc
    rw [Link.connect, hc]
    simp only [Bool.false_eq_true, if_false]
    rw [addLink, hg, ht]
    simp only
    rw [lookupA_insertA_self, pickStaticCast_eq_spec]
  · intro e
    rw [Link.pickStaticCast, TypeDef.isSameOrSubtypeOf,
      TypeDef.findName_self]
    rfl
  · intro e r h
    rw [Link.pickStaticCast, TypeDef.isSameOrSubtypeOf]
    rw [(TypeDef.findName_iff r e.name).mpr
      (TypeDef.mem_chainNames_of_properAncestor h)]
    rfl
  · intro e r _ h
    exact habsent e r h

/-- C1 witness: with `B` the parent of `M`, an Emitter of type `B` and a
Receiver of type `M` select unchecked, and an Emitter of type `M` with a
Receiver of type `B` select checked. -/
theorem connect_dispatch_selection_C1_witness :
    Link.pickStaticCast false tBase tMid = true ∧
    Link.pickStaticCast false tMid tBase = false :=
  ⟨connect_dispatch_selection_C1.2.2.1 tBase tMid (by decide),
   connect_dispatch_selection_C1.2.2.2.1 tMid tBase (by decide) (by decide)⟩

/-- C3: `Link::connect` returns false exactly on a null endpoint; for live
endpoints it returns true, connecting the pair when it was not connected;
an already-connected pair is left untouched; two successive connects on an
unconnected pair create exactly one new Link, and the pair reports
connected after either call. -/
theorem connect_null_idempotent_C3 (s : State) (g t : Nat) (f f' : Bool)
    (gs : SignalSt) (ts : SlotSt)
    (hg : lookupA g s.signals = some gs) (ht : lookupA t s.slots = some ts)
    (hfresh : lookupA s.nextLink s.links = none) :
    (Link.connect s none (some t) f).fst = false
    ∧ (Link.connect s (some g) none f).fst = false
    ∧ (Link.connect s none none f).fst = false
    ∧ (Link.connect s (some g) (some t) f).fst = true
    ∧ (isConnected s g t = true → Link.connect s (some g) (some t) f = (true, s))
    ∧ isConnected (Link.connect s (some g) (some t) f).snd g t = true
    ∧ (isConnected s g t = false →
        (Link.connect s (some g) (some t) f).snd.links.length
            = s.links.length + 1
        ∧ (Link.connect (Link.connect s (some g) (some t) f).snd
              (some g) (some t) f').snd.links.length = s.links.length + 1) := by
  have haddSig : lookupA g (addLink s g t f).signals
      = some { gs with links := insertA t s.nextLink gs.links } := by
    simp only [addLink, hg, ht]
    exact lookupA_updateA_self g _ hg
  have haddConn : isConnected (addLink s g t f) g t = true := by
    simp only [isConnected, haddSig, lookupA_insertA_self, Option.isSome_some]
  have haddLen : (addLink s g t f).links.length = s.links.length + 1 := by
    simp only [addLink, hg, ht]
    exact insertA_length_of_fresh _ hfresh
  refine ⟨rfl, rfl, rfl, ?_, ?_, ?_, ?_⟩
  · by_cases hc : isConnected s g t = true <;> simp [Link.connect, hc]
  · intro hc
    simp [Link.connect, hc]
  · by_cases hc : isConnected s g t = true
    · simp [Link.connect, hc]
    · simp only [Link.connect, hc, Bool.false_eq_true, if_false] at *
      simpa using haddConn
  · intro hc
    have hsnd : (Link.connect s (some g) (some t) f).snd = addLink s g t f := by
      simp [Link.connect, hc]
    refine ⟨by rw [hsnd]; exact haddLen, ?_⟩
    rw [hsnd]
    have h2 : Link.connect (addLink s g t f) (some g) (some t) f'
        = (true, addLink s g t f) := by
      simp [Link.connect, haddConn]
    rw [h2]
    exact haddLen

/-- C3 witness: on concrete unconnected endpoints, connect succeeds, the
pair is connected afterwards, and two connects create exactly one Link. -/
theorem connect_null_idempotent_C3_witness :
    (Link.connect stFresh (some 0) (some 0) false).fst = true
    ∧ isConnected (Link.connect stFresh (some 0) (some 0) false).snd 0 0 = true
    ∧ ((Link.connect stFresh (some 0) (some 0) false).snd.links.length
          = stFresh.links.length + 1
       ∧ (Link.connect (Link.connect stFresh (some 0) (some 0) false).snd
            (some 0) (some 0) true).snd.links.length
          = stFresh.links.length + 1) :=
  ⟨(connect_null_idempotent_C3 stFresh 0 0 false true ⟨tBase, []⟩ ⟨tBase, []⟩
      rfl rfl rfl).2.2.2.1,
   (connect_null_idempotent_C3 stFresh 0 0 false true ⟨tBase, []⟩ ⟨tBase, []⟩
      rfl rfl rfl).2.2.2.2.2.1,
   (connect_null_idempotent_C3 stFresh 0 0 false true ⟨tBase, []⟩ ⟨tBase, []⟩
      rfl rfl rfl).2.2.2.2.2.2 (by decide)⟩

/-- C10: calling connect on an already-connected pair, with either value of
the force flag, returns true and leaves the state (hence the existing Link
and its bound dispatch function) completely unchanged. -/
theorem connect_frame_C10 (s : State) (g t : Nat) (f : Bool)
    (h : isConnected s g t = true) :
    Link.connect s (some g) (some t) f = (true, s) := by
  simp [Link.connect, h]

/-- C10 witness: reconnecting the checked-path pair of `stChkBase` with
`forceStatic = true` changes nothing; the Link keeps the checked function. -/
theorem connect_frame_C10_witness :
    isConnected stChkBase 0 0 = true
    ∧ Link.connect stChkBase (some 0) (some 0) true = (true, stChkBase) :=
  ⟨by decide, connect_frame_C10 stChkBase 0 0 true (by decide)⟩

/-- C9: `setName` with a non-empty name registers the endpoint under that
name (overwriting any previous holder — last writer wins), after first
unregistering the endpoint's old name; `setName("")` unregisters, so a
lookup of the old name yields null.  `AnySlot` has the textually identical
code over its own directory. -/
theorem setName_directory_C9 :
    (∀ (d : NameDir) (e : Nat) (n : String), n ≠ "" →
        AnySignal.get (AnySignal.setName d e n) n = some e)
    ∧ ∀ (d : NameDir) (e : Nat),
        AnySignal.get (AnySignal.setName d e "") (AnySignal.nameOf d e)
          = none := by
  constructor
  · intro d e n h
    simp [AnySignal.setName, AnySignal.get, h, lookupA_insertA_self]
  · intro d e
    simp [AnySignal.setName, AnySignal.unregisterName, AnySignal.get,
      lookupA_eraseA_self]

/-- C9 witness: naming endpoint 1 `"x"` while endpoint 9 already holds
`"x"` makes a lookup of `"x"` return endpoint 1. -/
theorem setName_directory_C9_witness :
    AnySignal.get (AnySignal.setName dirW 1 "x") "x" = some 1 :=
  setName_directory_C9.1 dirW 1 "x" (by decide)

/-- C7 counterexample: `processNext` on the empty queue returns normally
(`ok false`, state unchanged); it does not report an internal error. -/
theorem processNext_empty_returns_normally_C7 :
    processNext stEmpty = .ok (false, stEmpty)
    ∧ (processNext stEmpty).isOk = true := by
  exact ⟨rfl, rfl⟩

/-- C7 amended: `processNext` called on an empty queue returns false
normally, without invoking anything and without an error; the internal
fault belongs to the lower-level `Message::Emitted::get`, which throws
`std::runtime_error` when called on an empty queue (`processNext` never
reaches it because it checks `empty()` first). -/
theorem processNext_empty_C7 :
    (∀ s : State, s.queue = [] → processNext s = .ok (false, s))
    ∧ Emitted.get ([] : List Entry)
        = .error "Message::Emitted::get called on empty Message queue" := by
  refine ⟨?_, rfl⟩
  intro s h
  simp [processNext, h]

/-- C7 witness: the amended statement applied to the empty state. -/
theorem processNext_empty_C7_witness :
    stEmpty.queue = [] ∧ processNext stEmpty = .ok (false, stEmpty) :=
  ⟨rfl, processNext_empty_C7.1 stEmpty rfl⟩

/-- C4 (code evaluated at the failing input): on a state with one connected
pair and one pending queue entry for its Link, `Link::disconnect` returns
true and makes `isConnected` false, but it does not destroy the Link: the
Link object survives in the link table and in the slot's link set, the
queued entry still references it, and draining still invokes the handler
through the supposedly disconnected Link — whereas actually destroying the
Link (`Link::~Link`) purges the entry and the registrations. -/
theorem disconnect_keeps_link_C4 :
    (Link.disconnect stPair (some 0) (some 0)).fst = true
    ∧ isConnected (Link.disconnect stPair (some 0) (some 0)).snd 0 0 = false
    ∧ (Link.disconnect stPair (some 0) (some 0)).snd.queue = [⟨5, some 0⟩]
    ∧ lookupA 0 (Link.disconnect stPair (some 0) (some 0)).snd.links
        = some ⟨0, 0, true⟩
    ∧ lookupA 0 (Link.disconnect stPair (some 0) (some 0)).snd.slots
        = some ⟨tBase, [0]⟩
    ∧ drainLog (Link.disconnect stPair (some 0) (some 0)).snd
        = some [⟨0, 5, some 0⟩]
    ∧ (Link.destroy stPair 0).queue = []
    ∧ lookupA 0 (Link.destroy stPair 0).links = none := by
  decide

theorem processNext_nil (s : State) (h : s.queue = []) :
    processNext s = .ok (false, s) := by
  simp [processNext, h]

theorem pushAll_acc (es acc : List Entry) :
    es.foldl (fun q e => Emitted.add e q) acc = es.reverse ++ acc := by
  induction es generalizing acc with
  | nil => simp
  | cons x xs ih =>
    simp [Emitted.add, ih, List.append_assoc]

theorem pushAll_eq_reverse (es : List Entry) : pushAll es = es.reverse := by
  rw [pushAll, pushAll_acc]
  simp

theorem extractAllF_eq_reverse :
    ∀ (n : Nat) (q : List Entry), q.length ≤ n → extractAllF n q = q.reverse := by
  intro n
  induction n with
  | zero =>
    intro q h
    have hq : q = [] := List.eq_nil_of_length_eq_zero (Nat.le_zero.mp h)
    subst hq
    rfl
  | succ n ih =>
    intro q h
    rcases List.eq_nil_or_concat q with rfl | ⟨l, e, rfl⟩
    · rfl
    · simp only [List.concat_eq_append] at h ⊢
      simp only [extractAllF, getBack_concat]
      rw [ih l (by simp at h; omega)]
      simp

theorem extractAll_pushAll (es : List Entry) : extractAll (pushAll es) = es := by
  rw [extractAll, pushAll_eq_reverse, extractAllF_eq_reverse _ _ le_rfl]
  simp

theorem linkForward_cases (s : State) (lk : LinkSt) (l m : Nat) :
    linkForward s lk l m = { s with log := s.log ++ [⟨lk.slt, m, some l⟩] }
    ∨ linkForward s lk l m = s := by
  rw [linkForward]
  by_cases h : lk.useStatic = true
  · left
    simp [h, staticCastInvoke]
  · have h' : lk.useStatic = false := by simpa using h
    rw [h']
    simp only [Bool.false_eq_true, if_false]
    rw [dynamicCastInvoke]
    cases lookupA lk.slt s.slots with
    | none => exact Or.inr rfl
    | some ts =>
      cases lookupA m s.msgs with
      | none => exact Or.inr rfl
      | some mt =>
        by_cases hc : ts.msgType.isSameOrSubtypeOf (some mt) = true
        · left
          simp [hc]
        · right
          simp [hc]

theorem linkForward_queue (s : State) (lk : LinkSt) (l m : Nat) :
    (linkForward s lk l m).queue = s.queue := by
  rcases linkForward_cases s lk l m with h | h <;> rw [h]

theorem linkForward_links (s : State) (lk : LinkSt) (l m : Nat) :
    (linkForward s lk l m).links = s.links := by
  rcases linkForward_cases s lk l m with h | h <;> rw [h]

theorem isEmpty_false_of_getBack {q : List Entry} {e : Entry}
    {q' : List Entry} (hq : getBack q = some (e, q')) :
    q.isEmpty = false := by
  cases hqq : q with
  | nil => rw [hqq] at hq; simp [getBack] at hq
  | cons a as => rfl

theorem processNext_eq_none (s : State) (e : Entry) (q' : List Entry)
    (hq : getBack s.queue = some (e, q')) (hl : e.link = none) :
    processNext s = .ok (!q'.isEmpty, { s with queue := q' }) := by
  simp only [processNext, isEmpty_false_of_getBack hq, Bool.false_eq_true,
    if_false, Emitted.get, hq, hl]

theorem processNext_eq_some (s : State) (e : Entry) (q' : List Entry)
    (l : Nat) (lk : LinkSt)
    (hq : getBack s.queue = some (e, q')) (hl : e.link = some l)
    (hlk : lookupA l s.links = some lk) :
    processNext s
      = .ok (!(linkForward { s with queue := q' } lk l e.msg).queue.isEmpty,
          linkForward { s with queue := q' } lk l e.msg) := by
  simp only [processNext, isEmpty_false_of_getBack hq, Bool.false_eq_true,
    if_false, Emitted.get, hq, hl, hlk]

/-- C5: the deferred queue is FIFO — dequeuing returns entries in exactly
the order they were enqueued — and concretely, emitting message 1 then
message 2 on one Emitter wired to one Receiver logs the handler invocation
for message 1 strictly before the one for message 2. -/
theorem fifo_order_C5 :
    (∀ es : List Entry, extractAll (pushAll es) = es)
    ∧ drainLog (emit (emit stFifo 0 1) 0 2)
        = some [⟨0, 1, some 0⟩, ⟨0, 2, some 0⟩] :=
  ⟨extractAll_pushAll, by decide⟩

/-- C6: on a queue whose oldest entry is `e` (with a live link reference),
`processNext` removes that entry, invokes the Link's `forward` with the
entry's message exactly when the entry's link is non-null, and returns
whether the queue is non-empty after the call. -/
theorem processNext_C6 (s : State) (e : Entry) (q' : List Entry)
    (hq : getBack s.queue = some (e, q'))
    (hok : entryLinkOk s.links e = true) :
    ∃ s₂, processNext s = .ok (!q'.isEmpty, s₂) ∧ s₂.queue = q'
      ∧ ((e.link = none ∧ s₂ = { s with queue := q' })
        ∨ ∃ l lk, e.link = some l ∧ lookupA l s.links = some lk
            ∧ s₂ = linkForward { s with queue := q' } lk l e.msg) := by
  cases hl : e.link with
  | none =>
    exact ⟨{ s with queue := q' }, processNext_eq_none s e q' hq hl, rfl,
      Or.inl ⟨rfl, rfl⟩⟩
  | some l =>
    simp only [entryLinkOk, hl] at hok
    obtain ⟨lk, hlk⟩ := Option.isSome_iff_exists.mp hok
    have h1 := processNext_eq_some s e q' l lk hq hl hlk
    have h2 : (linkForward { s with queue := q' } lk l e.msg).queue = q' :=
      linkForward_queue _ _ _ _
    rw [h2] at h1
    exact ⟨linkForward { s with queue := q' } lk l e.msg, h1, h2,
      Or.inr ⟨l, lk, rfl, hlk, rfl⟩⟩

/-- C6 witness: `processNext` on the one-entry state `stPair`. -/
theorem processNext_C6_witness :
    ∃ s₂, processNext stPair = .ok (!([] : List Entry).isEmpty, s₂)
      ∧ s₂.queue = []
      ∧ (((⟨5, some 0⟩ : Entry).link = none ∧ s₂ = { stPair with queue := [] })
        ∨ ∃ l lk, (⟨5, some 0⟩ : Entry).link = some l
            ∧ lookupA l stPair.links = some lk
            ∧ s₂ = linkForward { stPair with queue := [] } lk l
                ((⟨5, some 0⟩ : Entry).msg)) :=
  processNext_C6 stPair ⟨5, some 0⟩ [] (by decide) (by decide)

/-- C8: the checked (dynamic-cast) dispatch invokes the bound handler
exactly when the message's dynamic type carries the accepted type's name in
its chain (the accepted type or a descendant of it), and silently leaves
the state unchanged on a mismatch; the unchecked (static-cast) dispatch
invokes the handler unconditionally.  Concretely, an Emitter(`B`) wired to
a Receiver(`L`) through the checked path yields zero invocations when a
plain `B` message is emitted and drained, and exactly one for an `L`
message. -/
theorem dispatch_paths_C8 :
    (∀ (s : State) (slotId msgId : Nat) (lnk : Option Nat) (ts : SlotSt)
        (mt : TypeDef),
        lookupA slotId s.slots = some ts → lookupA msgId s.msgs = some mt →
        (ts.msgType.name ∈ mt.chainNames →
          dynamicCastInvoke s slotId msgId lnk
            = { s with log := s.log ++ [⟨slotId, msgId, lnk⟩] })
        ∧ (ts.msgType.name ∉ mt.chainNames →
          dynamicCastInvoke s slotId msgId lnk = s))
    ∧ (∀ (s : State) (slotId msgId : Nat) (lnk : Option Nat),
        staticCastInvoke s slotId msgId lnk
          = { s with log := s.log ++ [⟨slotId, msgId, lnk⟩] })
    ∧ drainLog stChkBase = some []
    ∧ drainLog stChkLeaf = some [⟨0, 1, some 0⟩] := by
  refine ⟨?_, fun s a b c => rfl, by decide, by decide⟩
  intro s slotId msgId lnk ts mt hs hm
  constructor
  · intro hmem
    have hc : ts.msgType.isSameOrSubtypeOf (some mt) = true := by
      rw [TypeDef.isSameOrSubtypeOf]
      exact (TypeDef.findName_iff mt ts.msgType.name).mpr hmem
    simp [dynamicCastInvoke, hs, hm, hc]
  · intro hmem
    have hc : ts.msgType.isSameOrSubtypeOf (some mt) = false := by
      rw [TypeDef.isSameOrSubtypeOf]
      cases hf : TypeDef.findName ts.msgType.name mt with
      | false => rfl
      | true => exact absurd ((TypeDef.findName_iff mt _).mp hf) hmem
    simp [dynamicCastInvoke, hs, hm, hc]

/-- C8 witness: the `L`-typed message is delivered through the checked
path, the `B`-typed message is silently dropped. -/
theorem dispatch_paths_C8_witness :
    dynamicCastInvoke stChkLeaf 0 1 (some 0)
      = { stChkLeaf with log := stChkLeaf.log ++ [⟨0, 1, some 0⟩] }
    ∧ dynamicCastInvoke stChkBase 0 1 (some 0) = stChkBase :=
  ⟨(dispatch_paths_C8.1 stChkLeaf 0 1 (some 0) ⟨tLeaf, [0]⟩ tLeaf rfl rfl).1
      (by decide),
   (dispatch_paths_C8.1 stChkBase 0 1 (some 0) ⟨tLeaf, [0]⟩ tBase rfl rfl).2
      (by decide)⟩

theorem signalDisconnect_snd_queue (s : State) (g t : Nat) :
    ((Link.signalDisconnect s g t).snd).queue = s.queue := by
  rw [Link.signalDisconnect]
  cases lookupA g s.signals <;> rfl

theorem signalDisconnect_snd_links (s : State) (g t : Nat) :
    ((Link.signalDisconnect s g t).snd).links = s.links := by
  rw [Link.signalDisconnect]
  cases lookupA g s.signals <;> rfl

theorem signalDisconnect_snd_log (s : State) (g t : Nat) :
    ((Link.signalDisconnect s g t).snd).log = s.log := by
  rw [Link.signalDisconnect]
  cases lookupA g s.signals <;> rfl

theorem destroy_queue_of_some {s : State} {lid : Nat} {lk : LinkSt}
    (h : lookupA lid s.links = some lk) :
    (Link.destroy s lid).queue = Emitted.erase lid s.queue := by
  simp [Link.destroy, h, signalDisconnect_snd_queue]

theorem destroy_links_of_some {s : State} {lid : Nat} {lk : LinkSt}
    (h : lookupA lid s.links = some lk) :
    (Link.destroy s lid).links = eraseA lid s.links := by
  simp [Link.destroy, h, signalDisconnect_snd_links]

theorem destroy_queue_no_lid {s : State} {lid : Nat}
    (hv : queueValidB s = true) :
    ∀ e ∈ (Link.destroy s lid).queue, e.link ≠ some lid := by
  cases h : lookupA lid s.links with
  | none =>
    intro e he hcontra
    simp only [Link.destroy, h] at he
    have hok := List.all_eq_true.mp hv e he
    simp [entryLinkOk, hcontra, h] at hok
  | some lk =>
    intro e he
    rw [destroy_queue_of_some h] at he
    have := (List.mem_filter.mp he).2
    simpa using this

theorem destroy_QInv {s : State} (lid : Nat) (hv : queueValidB s = true) :
    QInv lid (Link.destroy s lid) := by
  refine ⟨?_, destroy_queue_no_lid hv⟩
  intro e he
  cases h : lookupA lid s.links with
  | none =>
    simp only [Link.destroy, h] at he ⊢
    exact List.all_eq_true.mp hv e he
  | some lk =>
    rw [destroy_links_of_some h]
    rw [destroy_queue_of_some h] at he
    have hmem : e ∈ s.queue := List.mem_of_mem_filter he
    have hok := List.all_eq_true.mp hv e hmem
    cases hl : e.link with
    | none => simp [entryLinkOk, hl]
    | some l =>
      have hne : l ≠ lid := by
        have := (List.mem_filter.mp he).2
        rw [hl] at this
        simpa using this
      simp only [entryLinkOk, hl] at hok ⊢
      rw [lookupA_eraseA_ne hne]
      exact hok

theorem processNext_step {lid : Nat} {s : State} (h : QInv lid s)
    (hne : s.queue ≠ []) :
    ∃ b s', processNext s = .ok (b, s') ∧ QInv lid s'
      ∧ s'.queue.length + 1 = s.queue.length
      ∧ (s'.log = s.log
         ∨ ∃ i : Invocation, s'.log = s.log ++ [i] ∧ i.link ≠ some lid) := by
  obtain ⟨⟨e, q'⟩, hq⟩ : ∃ r, getBack s.queue = some r := by
    cases hg : getBack s.queue with
    | none => exact absurd ((getBack_eq_none_iff _).mp hg) hne
    | some r => exact ⟨r, rfl⟩
  have hmem := getBack_mem hq
  have hlen := getBack_length hq
  have hQ' : QInv lid { s with queue := q' } :=
    ⟨fun x hx => h.1 x (hmem.2 x hx), fun x hx => h.2 x (hmem.2 x hx)⟩
  cases hl : e.link with
  | none =>
    exact ⟨_, _, processNext_eq_none s e q' hq hl, hQ',
      by simpa using hlen.symm, Or.inl rfl⟩
  | some l =>
    have hok := h.1 e hmem.1
    simp only [entryLinkOk, hl] at hok
    obtain ⟨lk, hlk⟩ := Option.isSome_iff_exists.mp hok
    have h1 := processNext_eq_some s e q' l lk hq hl hlk
    rcases linkForward_cases { s with queue := q' } lk l e.msg with hc | hc
    · rw [hc] at h1
      refine ⟨_, _, h1, ?_, ?_, ?_⟩
      · exact ⟨fun x hx => hQ'.1 x hx, fun x hx => hQ'.2 x hx⟩
      · simpa using hlen.symm
      · right
        refine ⟨⟨lk.slt, e.msg, some l⟩, rfl, ?_⟩
        have hnolid := h.2 e hmem.1
        rw [hl] at hnolid
        simpa using hnolid
    · rw [hc] at h1
      exact ⟨_, _, h1, hQ', by simpa using hlen.symm, Or.inl rfl⟩

theorem drainFuel_QInv {lid : Nat} :
    ∀ (n : Nat) (s : State), QInv lid s → s.queue.length ≤ n →
      ∃ s', drainFuel n s = .ok s'
        ∧ ∀ i ∈ s'.log, i ∈ s.log ∨ i.link ≠ some lid := by
  intro n
  induction n with
  | zero =>
    intro s h hle
    exact ⟨s, rfl, fun i hi => Or.inl hi⟩
  | succ n ih =>
    intro s h hle
    by_cases hq : s.queue = []
    · have hp := processNext_nil s hq
      obtain ⟨s', hd, hl⟩ := ih s h (by rw [hq]; simp)
      refine ⟨s', ?_, hl⟩
      simp only [drainFuel]
      rw [hp]
      exact hd
    · obtain ⟨b, s1, hp, h1, hlen1, hlog1⟩ := processNext_step h hq
      have hle1 : s1.queue.length ≤ n := by omega
      obtain ⟨s', hd, hl⟩ := ih s1 h1 hle1
      refine ⟨s', ?_, ?_⟩
      · simp only [drainFuel]
        rw [hp]
        exact hd
      · intro i hi
        rcases hl i hi with hin | hnl
        · rcases hlog1 with he | ⟨j, hj, hjl⟩
          · rw [he] at hin
            exact Or.inl hin
          · rw [hj] at hin
            rcases List.mem_append.mp hin with ha | hb
            · exact Or.inl ha
            · have hij : i = j := by simpa using hb
              rw [hij]
              exact Or.inr hjl
        · exact Or.inr hnl

/-- C2: destroying a Link first removes every pending queue entry that
references it, so afterwards no queue entry references the destroyed Link;
draining the queue then completes without fault and never invokes a
handler through the destroyed Link. -/
theorem link_destroy_purges_C2 (s : State) (lid : Nat)
    (hv : queueValidB s = true) :
    (∀ e ∈ (Link.destroy s lid).queue, e.link ≠ some lid)
    ∧ ∃ s', drain (Link.destroy s lid) = .ok s'
        ∧ ∀ i ∈ s'.log, i ∈ (Link.destroy s lid).log ∨ i.link ≠ some lid := by
  refine ⟨destroy_queue_no_lid hv, ?_⟩
  exact drainFuel_QInv (Link.destroy s lid).queue.length _
    (destroy_QInv lid hv) le_rfl

/-- C2 witness: destroying link 0 of `stPair` purges its pending entry and
the subsequent drain is fault-free and silent for that link. -/
theorem link_destroy_purges_C2_witness :
    queueValidB stPair = true
    ∧ ((∀ e ∈ (Link.destroy stPair 0).queue, e.link ≠ some 0)
       ∧ ∃ s', drain (Link.destroy stPair 0) = .ok s'
           ∧ ∀ i ∈ s'.log, i ∈ (Link.destroy stPair 0).log ∨ i.link ≠ some 0) :=
  ⟨by decide, link_destroy_purges_C2 stPair 0 (by decide)⟩

end MPO
